import Mathlib

namespace Cclsp

/-!
Verification development for the cclsp repository.

The file shallowly embeds the code of src/setup.ts (the MCP command
builders and the command-runner promise logic) and, for the core
subsystem that is not part of the source tree (transport framer,
protocol client, symbol resolver, rename orchestrator), models the
behaviour directly from the specification.  Theorems at the end settle
the frozen claims C1..C10.

JavaScript strings are modelled as lists of characters (JSStr), so
that all definitions compute by kernel reduction.
-/
/-- JavaScript strings, modelled as character lists. -/
abbrev JSStr := List Char
/-- Character list of a Lean string literal. -/
def str (s : String) : JSStr := s.data

namespace Setup

/-- Replacement of every space by backslash-space, the effect of the
source expression path.replace of a space by an escaped space. -/
def escapeSpaces (p : JSStr) : JSStr :=
  (p.map fun c => if c = ' ' then ['\\', ' '] else [c]).flatten

/-- Absoluteness test of generateMCPCommand (setup.ts lines 254-257):
a path is treated as absolute when it starts with a slash, a backslash,
or has a Windows drive letter (second character is a colon). -/
def isAbsoluteConfigPath (configPath : JSStr) : Bool :=
  (str "/").isPrefixOf configPath || (str "\\").isPrefixOf configPath ||
    (decide (1 < configPath.length) && (configPath[1]? == some ':'))

/-- Embedding of generateMCPCommand (setup.ts lines 248-274).  The
node path.resolve call used for relative paths depends on the process
working directory and is abstracted as the resolvePath argument. -/
def generateMCPCommand (resolvePath : JSStr → JSStr) (configPath : JSStr)
    (isUser : Bool) (platform : JSStr) : JSStr :=
  let absoluteConfigPath :=
    if isAbsoluteConfigPath configPath then configPath else resolvePath configPath
  let scopeFlag := if isUser then str " --scope user" else []
  let isWindows := platform = str "win32"
  let commandPre := if isWindows then str "cmd /c " else []
  let pathWithSpaces := absoluteConfigPath.contains ' '
  let quotedPath :=
    if pathWithSpaces then
      if isWindows then str "\"" ++ absoluteConfigPath ++ str "\""
      else escapeSpaces absoluteConfigPath
    else absoluteConfigPath
  str "claude mcp add cclsp " ++ commandPre ++ str "npx github:sysid/cclsp" ++
    scopeFlag ++ str " --env CCLSP_CONFIG_PATH=" ++ quotedPath

/-- Embedding of buildMCPArgs (setup.ts lines 276-310): the argument
array pushed in source order. -/
def buildMCPArgs (absoluteConfigPath : JSStr) (isUser : Bool)
    (platform : JSStr) : List JSStr :=
  let isWindows := platform = str "win32"
  let serverArgs :=
    if isWindows then [str "cmd", str "/c", str "npx", str "github:sysid/cclsp"]
    else [str "npx", str "github:sysid/cclsp"]
  let scopeArgs := if isUser then [str "--scope", str "user"] else []
  let pathWithSpaces := absoluteConfigPath.contains ' '
  let quotedPath :=
    if pathWithSpaces then
      if isWindows then str "\"" ++ absoluteConfigPath ++ str "\""
      else escapeSpaces absoluteConfigPath
    else absoluteConfigPath
  [str "mcp", str "add", str "cclsp"] ++ serverArgs ++ scopeArgs ++
    [str "--env", str "CCLSP_CONFIG_PATH=" ++ quotedPath]

/-- Rendering rule for the CCLSP_CONFIG_PATH value as the claims state
it: a path containing a space is wrapped in double quotes on win32 and
has each space replaced by backslash-space elsewhere; a path without
spaces is emitted unchanged. -/
def specRenderedPath (path : JSStr) (platform : JSStr) : JSStr :=
  if path.contains ' ' then
    if platform = str "win32" then str "\"" ++ path ++ str "\""
    else escapeSpaces path
  else path

/-- The argument-array elements that buildMCPArgs emits before the
environment assignment. -/
def mcpArgsHead (isUser : Bool) (platform : JSStr) : List JSStr :=
  [str "mcp", str "add", str "cclsp"] ++
    (if platform = str "win32" then
      [str "cmd", str "/c", str "npx", str "github:sysid/cclsp"]
     else [str "npx", str "github:sysid/cclsp"]) ++
    (if isUser then [str "--scope", str "user"] else [])

/-- The part of the generated command string before the environment
assignment. -/
def mcpCommandHead (isUser : Bool) (platform : JSStr) : JSStr :=
  str "claude mcp add cclsp " ++
    (if platform = str "win32" then str "cmd /c " else []) ++
    str "npx github:sysid/cclsp" ++
    (if isUser then str " --scope user" else [])

/-- The absolute path the command builder renders: the input when it
is already absolute, otherwise the resolved input. -/
def absoluteOf (resolvePath : JSStr → JSStr) (configPath : JSStr) : JSStr :=
  if isAbsoluteConfigPath configPath then configPath else resolvePath configPath

/-- A character list occurs contiguously inside another. -/
def occursIn (pat : JSStr) : JSStr → Bool
  | [] => pat.isEmpty
  | c :: rest => pat.isPrefixOf (c :: rest) || occursIn pat rest

/-! Command-runner promise logic (setup.ts lines 135-246).  A spawned
process delivers a sequence of events: stdout and stderr data chunks,
at most one spawn error, and at most one close with an exit code.  The
embedding replays the event handlers over such a trace and records, in
order, every value passed to the promise resolver. -/

/-- Events a spawned child process can deliver to its handlers. -/
inductive SpawnEvent where
  | stdout (data : JSStr)
  | stderr (data : JSStr)
  | errored (message : JSStr)
  | closed (code : Option Int)
deriving DecidableEq

/-- Event replay for runCommand: accumulates output and error text,
sets the hasErrored flag on a spawn error, and records each resolver
call.  The close handler resolves only when no error was handled. -/
def runCommandEvents : List SpawnEvent → JSStr → JSStr → Bool → List Bool
  | [], _, _, _ => []
  | .stdout d :: rest, out, err, hasErrored =>
      runCommandEvents rest (out ++ d) err hasErrored
  | .stderr d :: rest, out, err, hasErrored =>
      runCommandEvents rest out (err ++ d) hasErrored
  | .errored _ :: rest, out, err, _ =>
      false :: runCommandEvents rest out err true
  | .closed code :: rest, out, err, hasErrored =>
      if hasErrored then runCommandEvents rest out err hasErrored
      else (code == some 0) :: runCommandEvents rest out err hasErrored

/-- Embedding of runCommand (setup.ts lines 135-197): the list of
booleans passed to the promise resolver, in order.  An empty command
resolves false immediately and spawns nothing. -/
def runCommand (command : List JSStr) (events : List SpawnEvent) : List Bool :=
  match command with
  | [] => [false]
  | cmd :: _ => if cmd = [] then [false] else runCommandEvents events [] [] false

/-- Result shape of runCommandSilent. -/
structure CommandOutcome where
  success : Bool
  output : JSStr
  error : JSStr
deriving DecidableEq

/-- Whitespace trimming at both ends, the effect of JS String.trim. -/
def jsTrim (s : JSStr) : JSStr :=
  ((s.dropWhile Char.isWhitespace).reverse.dropWhile Char.isWhitespace).reverse

/-- Event replay for runCommandSilent (setup.ts lines 199-246). -/
def runCommandSilentEvents :
    List SpawnEvent → JSStr → JSStr → Bool → List CommandOutcome
  | [], _, _, _ => []
  | .stdout d :: rest, out, err, hasErrored =>
      runCommandSilentEvents rest (out ++ d) err hasErrored
  | .stderr d :: rest, out, err, hasErrored =>
      runCommandSilentEvents rest out (err ++ d) hasErrored
  | .errored msg :: rest, out, err, _ =>
      ⟨false, jsTrim out, msg⟩ :: runCommandSilentEvents rest out err true
  | .closed code :: rest, out, err, hasErrored =>
      if hasErrored then runCommandSilentEvents rest out err hasErrored
      else ⟨code == some 0, jsTrim out, jsTrim err⟩ ::
        runCommandSilentEvents rest out err hasErrored

/-- Embedding of runCommandSilent: the outcomes passed to the promise
resolver, in order. -/
def runCommandSilent (command : List JSStr) (events : List SpawnEvent) :
    List CommandOutcome :=
  match command with
  | [] => [⟨false, [], str "No command specified"⟩]
  | cmd :: _ =>
      if cmd = [] then [⟨false, [], str "No command specified"⟩]
      else runCommandSilentEvents events [] [] false

/-- An event is a spawn error. -/
def SpawnEvent.isErr : SpawnEvent → Bool
  | .errored _ => true
  | _ => false

/-- An event is a close. -/
def SpawnEvent.isClose : SpawnEvent → Bool
  | .closed _ => true
  | _ => false

/-- No close event is followed by a spawn error anywhere in the trace. -/
def noErrAfterClose : List SpawnEvent → Bool
  | [] => true
  | .closed _ :: rest => (rest.filter SpawnEvent.isErr).isEmpty && noErrAfterClose rest
  | _ :: rest => noErrAfterClose rest

/-- The event traces a node child process can actually deliver: at
most one spawn error, at most one close, and any close comes after the
spawn error when both occur. -/
def spawnTraceOk (es : List SpawnEvent) : Bool :=
  decide ((es.filter SpawnEvent.isErr).length ≤ 1) &&
    decide ((es.filter SpawnEvent.isClose).length ≤ 1) &&
    noErrAfterClose es

/-- Argument-list elements joined by single spaces, the reading of
the claim that the command string is the argument array joined by
spaces. -/
def joinSpaced : List JSStr → JSStr
  | [] => []
  | [a] => a
  | a :: b :: rest => a ++ (' ' :: joinSpaced (b :: rest))

/-- The code of the first close event in the trace, when there is one. -/
def firstClose : List SpawnEvent → Option (Option Int)
  | [] => none
  | .closed code :: _ => some code
  | _ :: rest => firstClose rest

end Setup

namespace Framer

/-! Transport framer.  Modelled from the spec: the framer source is not
part of src/, so encoding and incremental decoding of the wire format
Content-Length: n CRLF CRLF followed by n payload bytes are modelled
from section 4.1 of the specification.  Bytes are natural numbers. -/

/-- Modelled from the spec: the ASCII bytes of the Content-Length
header label, including the separating colon and space. -/
def headerLabel : List Nat := (str "Content-Length: ").map Char.toNat

/-- The carriage-return line-feed pair repeated twice, separating the
header section from the payload. -/
def crlfcrlf : List Nat := [13, 10, 13, 10]

/-- Decimal digit bytes of a natural number, most significant first. -/
def natBytes (n : Nat) : List Nat :=
  if n = 0 then [48] else ((Nat.digits 10 n).reverse.map (· + 48))

/-- Modelled from the spec: encode serializes a framed message as the
header, its byte length in decimal, the double CRLF, and the payload. -/
def encode (m : List Nat) : List Nat :=
  headerLabel ++ natBytes m.length ++ crlfcrlf ++ m

/-- Index of the first double-CRLF in the buffer, when present. -/
def findSep : List Nat → Option Nat
  | [] => none
  | b :: rest =>
      if crlfcrlf.isPrefixOf (b :: rest) then some 0
      else (findSep rest).map (· + 1)

/-- Parse a run of ASCII decimal digits. -/
def parseDigits (bs : List Nat) : Option Nat :=
  if bs = [] then none
  else if bs.all (fun b => decide (48 ≤ b ∧ b ≤ 57)) then
    some (bs.foldl (fun a b => a * 10 + (b - 48)) 0)
  else none

/-- Parse the header section into the announced payload length. -/
def parseHeader (bs : List Nat) : Option Nat :=
  if headerLabel.isPrefixOf bs then parseDigits (bs.drop headerLabel.length)
  else none

/-- Try to extract one complete framed message from the buffer,
returning the payload and the remaining bytes. -/
def extractOne (buf : List Nat) : Option (List Nat × List Nat) :=
  match findSep buf with
  | none => none
  | some i =>
      match parseHeader (buf.take i) with
      | none => none
      | some n =>
          let rest := buf.drop (i + 4)
          if n ≤ rest.length then some (rest.take n, rest.drop n) else none

/-- Fuelled extraction loop: extract as many complete messages as the
buffer holds, returning them with the unconsumed residue. -/
def drainGo : Nat → List Nat → List (List Nat) × List Nat
  | 0, buf => ([], buf)
  | fuel + 1, buf =>
      match extractOne buf with
      | none => ([], buf)
      | some (m, r) => (m :: (drainGo fuel r).1, (drainGo fuel r).2)

/-- Modelled from the spec: decoding drains every complete message
from the accumulated bytes.  Each successful extraction strictly
shortens the buffer, so buffer length plus one is enough fuel. -/
def drain (buf : List Nat) : List (List Nat) × List Nat :=
  drainGo (buf.length + 1) buf

/-- Feeding one read chunk: append it to the residue and drain. -/
def feed (st : List (List Nat) × List Nat) (chunk : List Nat) :
    List (List Nat) × List Nat :=
  let p := drain (st.2 ++ chunk)
  (st.1 ++ p.1, p.2)

/-- Decode a sequence of read chunks from an initially empty buffer. -/
def decodeChunks (chunks : List (List Nat)) : List (List Nat) × List Nat :=
  chunks.foldl feed ([], [])

end Framer

namespace Resolver

/-! Symbol resolver.  Modelled from the spec: the resolver source is
not part of src/, so the name-based resolution pipeline of section 4.5
is modelled from the specification: lexical token scan, probing via a
definition oracle, deduplication by target location, optional kind
filter, and the zero/one/many decision. -/

/-- A resolved target location: file path, line, character. -/
structure Location where
  file : JSStr
  line : Nat
  character : Nat
deriving DecidableEq

/-- LSP symbol kinds, abridged to the ones the queries use. -/
inductive SymbolKind where
  | function
  | variable
  | parameter
  | classKind
  | method
deriving DecidableEq

/-- A surviving candidate: the probed offset and the definition
location it resolved to. -/
structure Candidate where
  offset : Nat
  target : Location
deriving DecidableEq

/-- Identifier characters for the lexical token scan. -/
def isIdentChar (c : Char) : Bool := c.isAlphanum || c = '_'

/-- The symbol name occurs at offset i of the text as a whole token:
it matches there and is not flanked by identifier characters. -/
def occAt (text name : JSStr) (i : Nat) : Bool :=
  name.isPrefixOf (text.drop i) &&
    (match text[i - 1]? with
     | some c => !(isIdentChar c) || decide (i = 0)
     | none => true) &&
    (match text[i + name.length]? with
     | some c => !(isIdentChar c)
     | none => true)

/-- Step 1 of the resolution algorithm: every token occurrence of the
literal symbol name in the file text. -/
def tokenOccurrences (text name : JSStr) : List Nat :=
  (List.range text.length).filter (occAt text name)

/-- Step 3: probe each candidate offset with a definition query and
keep those whose result is non-empty, paired with the first reported
definition location. -/
def surviving (defsAt : Nat → List Location) (cands : List Nat) :
    List Candidate :=
  cands.filterMap fun o =>
    match defsAt o with
    | [] => none
    | l :: _ => some ⟨o, l⟩

/-- Step 4: deduplicate candidates by target location, keeping the
first candidate reported for each target. -/
def dedupeGo (seen : List Location) : List Candidate → List Candidate
  | [] => []
  | c :: rest =>
      if seen.contains c.target then dedupeGo seen rest
      else c :: dedupeGo (c.target :: seen) rest

/-- Deduplication of resulting definitions by target location. -/
def dedupeByTarget (cands : List Candidate) : List Candidate :=
  dedupeGo [] cands

/-- Step 5: keep only candidates of the requested kind, when a kind
was supplied. -/
def kindFiltered (kindOf : Location → Option SymbolKind)
    (wanted : Option SymbolKind) (cands : List Candidate) : List Candidate :=
  match wanted with
  | none => cands
  | some k => cands.filter fun c => kindOf c.target == some k

/-- Outcome of a name-based resolution. -/
inductive ResolveOutcome where
  | symbolNotFound
  | resolved (c : Candidate)
  | ambiguous (cs : List Candidate)
deriving DecidableEq

/-- Step 6: the zero/one/many decision on surviving candidates. -/
def decideCandidates : List Candidate → ResolveOutcome
  | [] => .symbolNotFound
  | [c] => .resolved c
  | c1 :: c2 :: rest => .ambiguous (c1 :: c2 :: rest)

/-- The candidates that survive the whole pipeline for a name query. -/
def finalCandidates (text name : JSStr) (defsAt : Nat → List Location)
    (kindOf : Location → Option SymbolKind) (wanted : Option SymbolKind) :
    List Candidate :=
  kindFiltered kindOf wanted
    (dedupeByTarget (surviving defsAt (tokenOccurrences text name)))

/-- Modelled from the spec: resolution of a name-based symbol query,
sections 4.5 steps 1 through 6. -/
def resolveByName (text name : JSStr) (defsAt : Nat → List Location)
    (kindOf : Location → Option SymbolKind) (wanted : Option SymbolKind) :
    ResolveOutcome :=
  decideCandidates (finalCandidates text name defsAt kindOf wanted)

end Resolver

namespace Rename

/-! Rename orchestrator.  Modelled from the spec: the orchestrator
source is not part of src/, so sections 3 (FileEditPlan, WorkspaceEdit)
and 4.6 (preview, apply, backups, optimistic concurrency) are modelled
from the specification.  File contents are character lists and the
filesystem is an association list from path to content. -/

/-- One text replacement inside a file, by character offsets. -/
structure TextEdit where
  start : Nat
  stop : Nat
  newText : JSStr
deriving DecidableEq

/-- A workspace edit: for each file, its list of replacements. -/
abbrev WorkspaceEdit := List (JSStr × List TextEdit)

/-- A per-file edit plan, one WorkspaceEdit entry materialized. -/
structure FileEditPlan where
  path : JSStr
  originalContent : JSStr
  newContent : JSStr
deriving DecidableEq

/-- The filesystem: an association list from path to content. -/
abbrev Fs := List (JSStr × JSStr)

/-- Content of a path, taking the first binding. -/
def fsGet (fs : Fs) (p : JSStr) : Option JSStr :=
  match fs with
  | [] => none
  | (q, c) :: rest => if q = p then some c else fsGet rest p

/-- Writing a path shadows earlier bindings. -/
def fsPut (fs : Fs) (p c : JSStr) : Fs := (p, c) :: fs

/-- Modelled from the spec: the fixed backup suffix convention. -/
def backupSuffix : JSStr := str ".bak"

/-- Backup location of a file: the original path plus the fixed
suffix, hence in the same directory. -/
def backupPathOf (p : JSStr) : JSStr := p ++ backupSuffix

/-- Apply one replacement at its offsets. -/
def applyTextEdit (content : JSStr) (e : TextEdit) : JSStr :=
  content.take e.start ++ e.newText ++ content.drop e.stop

/-- Insert an edit into a list sorted by descending start offset. -/
def insertDesc (e : TextEdit) : List TextEdit → List TextEdit
  | [] => [e]
  | f :: rest => if f.start ≤ e.start then e :: f :: rest else f :: insertDesc e rest

/-- Sort edits by descending start offset (bottom of file first), per
the WorkspaceEdit invariant of section 3. -/
def sortEditsDesc (edits : List TextEdit) : List TextEdit :=
  edits.foldr insertDesc []

/-- New content of a file: replacements applied in descending source
order so earlier replacements never shift later offsets. -/
def applyEditsDescending (content : JSStr) (edits : List TextEdit) : JSStr :=
  (sortEditsDesc edits).foldl applyTextEdit content

/-- Modelled from the spec: converting a WorkspaceEdit into per-file
plans without touching the filesystem (section 4.6 preview).  Files
missing from the filesystem yield no plan. -/
def computeFileEditPlans (we : WorkspaceEdit) (fs : Fs) : List FileEditPlan :=
  we.filterMap fun entry =>
    match fsGet fs entry.1 with
    | none => none
    | some orig =>
        some ⟨entry.1, orig, applyEditsDescending orig entry.2⟩

/-- Observable filesystem writes of an apply run. -/
inductive FsOp where
  | writeBackup (target : JSStr) (content : JSStr)
  | overwrite (path : JSStr) (content : JSStr)
deriving DecidableEq

/-- Failure of an apply run. -/
inductive ApplyFailure where
  | concurrentModification (path : JSStr)
deriving DecidableEq

/-- Result of applying a list of plans. -/
structure ApplyResult where
  applied : List JSStr
  ops : List FsOp
  fs : Fs
  failure : Option ApplyFailure

/-- Modelled from the spec: apply the plans file by file; for each
file read the current content, fail with ConcurrentModification when
it no longer matches the plan, otherwise write the backup copy beside
the original and then overwrite the original.  On failure the files
already applied are left in place. -/
def applyPlans : List FileEditPlan → Fs → ApplyResult
  | [], fs => ⟨[], [], fs, none⟩
  | p :: rest, fs =>
      match fsGet fs p.path with
      | none => ⟨[], [], fs, some (.concurrentModification p.path)⟩
      | some content =>
          if content = p.originalContent then
            let fs1 := fsPut fs (backupPathOf p.path) content
            let fs2 := fsPut fs1 p.path p.newContent
            let res := applyPlans rest fs2
            ⟨p.path :: res.applied,
              .writeBackup (backupPathOf p.path) content ::
                .overwrite p.path p.newContent :: res.ops,
              res.fs, res.failure⟩
          else ⟨[], [], fs, some (.concurrentModification p.path)⟩

/-- Result of a rename operation: the computed plans, the applied
files, the writes performed, and the final filesystem. -/
structure RenameResult where
  plans : List FileEditPlan
  applied : List JSStr
  ops : List FsOp
  fs : Fs

/-- Modelled from the spec: the rename orchestrator entry point.  The
oracle stands for the workspace edit the language server returns for
the resolved position and new name.  With dryRun the computed plans
are returned and the filesystem is untouched; otherwise the same plans
are applied. -/
def runRename (oracle : Nat × Nat → JSStr → WorkspaceEdit)
    (pos : Nat × Nat) (newName : JSStr) (dryRun : Bool) (fs : Fs) : RenameResult :=
  let plans := computeFileEditPlans (oracle pos newName) fs
  if dryRun then ⟨plans, [], [], fs⟩
  else
    let res := applyPlans plans fs
    ⟨plans, res.applied, res.ops, res.fs⟩

/-- Every overwrite in an op trace is preceded by the backup write of
the same file at its backup path. -/
def backupBeforeOverwrite (ops : List FsOp) : Prop :=
  ∀ pre path content suf, ops = pre ++ FsOp.overwrite path content :: suf →
    ∃ c, FsOp.writeBackup (backupPathOf path) c ∈ pre

end Rename

namespace Protocol

/-! Protocol client pending-request table.  Modelled from the spec:
the client source is not part of src/, so the correlation table and
its reaction to responses, timeouts and process exit are modelled from
sections 4.2, 4.3 and 7 of the specification. -/

/-- Lifecycle states of a server instance (section 4.3). -/
inductive Lifecycle where
  | starting
  | running
  | restarting
  | stopped
  | failed
deriving DecidableEq

/-- An in-flight request: its id and submission time. -/
structure PendingReq where
  id : Nat
  sentAt : Nat
deriving DecidableEq

/-- Mutable state of one server instance: lifecycle, pending-request
table, and the monotonically increasing request-id counter. -/
structure InstanceState where
  lifecycle : Lifecycle
  pending : List PendingReq
  nextId : Nat
deriving DecidableEq

/-- Failure kinds a pending request can be completed with. -/
inductive ReqFailure where
  | timeout
  | serverDisconnected
deriving DecidableEq

/-- Completion of one pending request. -/
inductive Completion where
  | succeeded (id : Nat)
  | failed (id : Nat) (e : ReqFailure)
deriving DecidableEq

/-- Events the dispatch loop of one instance consumes. -/
inductive ClientEvent where
  | response (id : Nat)
  | timeoutFired (id : Nat)
  | processExit
deriving DecidableEq

/-- Modelled from the spec: one dispatch step.  A response completes
and removes the matching pending request (unmatched ids are discarded);
a timeout fails and removes its request; process exit moves the
instance to Stopped, empties the table, and fails every pending
request with ServerDisconnected. -/
def protocolStep (st : InstanceState) (ev : ClientEvent) :
    InstanceState × List Completion :=
  match ev with
  | .response id =>
      if st.pending.any (fun r => r.id = id) then
        ({ st with pending := st.pending.filter fun r => r.id ≠ id },
          [.succeeded id])
      else (st, [])
  | .timeoutFired id =>
      if st.pending.any (fun r => r.id = id) then
        ({ st with pending := st.pending.filter fun r => r.id ≠ id },
          [.failed id .timeout])
      else (st, [])
  | .processExit =>
      ({ st with lifecycle := .stopped, pending := [] },
        st.pending.map fun r => .failed r.id .serverDisconnected)

/-- Modelled from the spec: a restart tears the old process down, so
the old instance observes a process exit; the replacement then starts
fresh.  The completions emitted are those of the exit step. -/
def restartInstance (st : InstanceState) : InstanceState × List Completion :=
  let p := protocolStep st .processExit
  ({ p.1 with lifecycle := .starting }, p.2)

end Protocol

namespace Config

/-! Configuration generator.  The generateConfig function lives in
src/language-servers.ts, which is absent from src/; it is modelled
here from the spec (sections 3 and 6) and from the behaviour its unit
tests in src/setup.test.ts pin down. -/

/-- A language server entry of the LANGUAGE_SERVERS catalog. -/
structure LanguageServerDef where
  name : JSStr
  extensions : List JSStr
  command : List JSStr
  restartInterval : Option Nat
deriving DecidableEq

/-- Modelled from the spec: the LANGUAGE_SERVERS catalog from
language-servers.ts (absent from src/), restricted to the entries the
unit tests in setup.test.ts pin down exactly: typescript, python
(restart interval 5 minutes), go and rust. -/
def LANGUAGE_SERVERS : List LanguageServerDef :=
  [⟨str "typescript", [str "ts", str "tsx", str "js", str "jsx"],
      [str "npx", str "--", str "typescript-language-server", str "--stdio"], none⟩,
   ⟨str "python", [str "py"], [str "pylsp"], some 5⟩,
   ⟨str "go", [str "go"], [str "gopls"], none⟩,
   ⟨str "rust", [str "rs"], [str "rust-analyzer"], none⟩]

/-- One server descriptor of the generated configuration. -/
structure ServerConfigEntry where
  extensions : List JSStr
  command : List JSStr
  rootDir : JSStr
  restartInterval : Option Nat
deriving DecidableEq

/-- The generated configuration object. -/
structure CclspConfig where
  servers : List ServerConfigEntry
deriving DecidableEq

/-- Descriptor generated for one catalog entry: its extensions, its
command, the current-directory working directory, and the restart
interval when the catalog defines one. -/
def toServerEntry (s : LanguageServerDef) : ServerConfigEntry :=
  ⟨s.extensions, s.command, str ".", s.restartInterval⟩

/-- Modelled from the spec: generateConfig keeps the catalog entries
whose name was selected, in catalog order, and materializes each into
a server descriptor. -/
def generateConfig (selectedLanguages : List JSStr) : CclspConfig :=
  ⟨(LANGUAGE_SERVERS.filter fun s => selectedLanguages.contains s.name).map
      toServerEntry⟩

/-- JSON values, as far as the generated configuration needs them. -/
inductive Json where
  | jstr (s : JSStr)
  | jnum (n : Nat)
  | jarr (items : List Json)
  | jobj (fields : List (JSStr × Json))

/-- Keys of a JSON object, in order. -/
def jsonKeys : Json → List JSStr
  | .jobj fields => fields.map Prod.fst
  | _ => []

/-- Serialization of one server descriptor, mirroring how
JSON.stringify lays out the object: fields in declaration order and
the optional restartInterval omitted when undefined. -/
def serverEntryJson (e : ServerConfigEntry) : Json :=
  .jobj ([(str "extensions", .jarr (e.extensions.map .jstr)),
          (str "command", .jarr (e.command.map .jstr)),
          (str "rootDir", .jstr e.rootDir)] ++
    (match e.restartInterval with
     | some n => [(str "restartInterval", Json.jnum n)]
     | none => []))

/-- Serialization of the whole configuration: a single servers key
holding the ordered descriptor array. -/
def configJson (c : CclspConfig) : Json :=
  .jobj [(str "servers", .jarr (c.servers.map serverEntryJson))]

end Config

/-! Theorems about the embedded definitions. -/

namespace Setup

theorem buildMCPArgs_decomp (absPath : JSStr) (isUser : Bool) (platform : JSStr) :
    buildMCPArgs absPath isUser platform =
      mcpArgsHead isUser platform ++
        [str "--env", str "CCLSP_CONFIG_PATH=" ++ specRenderedPath absPath platform] := by
  simp only [buildMCPArgs, mcpArgsHead, specRenderedPath, List.append_assoc]

theorem generateMCPCommand_decomp (resolvePath : JSStr → JSStr) (configPath : JSStr)
    (isUser : Bool) (platform : JSStr) :
    generateMCPCommand resolvePath configPath isUser platform =
      mcpCommandHead isUser platform ++ str " --env CCLSP_CONFIG_PATH=" ++
        specRenderedPath (absoluteOf resolvePath configPath) platform := by
  simp only [generateMCPCommand, mcpCommandHead, specRenderedPath, absoluteOf,
    List.append_assoc]

theorem mcpArgsHead_no_env (isUser : Bool) (platform : JSStr) :
    ∀ a ∈ mcpArgsHead isUser platform,
      a ≠ str "--env" ∧ (str "CCLSP_CONFIG_PATH=").isPrefixOf a = false := by
  unfold mcpArgsHead
  by_cases hw : platform = str "win32" <;> by_cases hu : isUser <;>
    simp only [hw, hu, if_true, if_false, ite_true, ite_false] <;> decide

theorem mcpCommandHead_no_env (isUser : Bool) (platform : JSStr) :
    occursIn (str "--env") (mcpCommandHead isUser platform) = false ∧
      occursIn (str "CCLSP_CONFIG_PATH") (mcpCommandHead isUser platform) = false := by
  unfold mcpCommandHead
  by_cases hw : platform = str "win32" <;> by_cases hu : isUser <;>
    simp only [hw, hu, if_true, if_false, ite_true, ite_false] <;> decide

theorem runCommandEvents_after_error (es : List SpawnEvent)
    (h : (es.filter SpawnEvent.isErr).isEmpty = true) :
    ∀ out err, runCommandEvents es out err true = [] := by
  induction es with
  | nil => intro out err; rfl
  | cons e rest ih =>
      intro out err
      cases e with
      | stdout d =>
          simp only [List.filter, SpawnEvent.isErr] at h
          exact ih h _ _
      | stderr d =>
          simp only [List.filter, SpawnEvent.isErr] at h
          exact ih h _ _
      | errored m =>
          simp [List.filter, SpawnEvent.isErr, List.isEmpty] at h
      | closed c =>
          simp only [List.filter, SpawnEvent.isErr] at h
          simpa [runCommandEvents] using ih h _ _

theorem runCommandSilentEvents_after_error (es : List SpawnEvent)
    (h : (es.filter SpawnEvent.isErr).isEmpty = true) :
    ∀ out err, runCommandSilentEvents es out err true = [] := by
  induction es with
  | nil => intro out err; rfl
  | cons e rest ih =>
      intro out err
      cases e with
      | stdout d =>
          simp only [List.filter, SpawnEvent.isErr] at h
          exact ih h _ _
      | stderr d =>
          simp only [List.filter, SpawnEvent.isErr] at h
          exact ih h _ _
      | errored m =>
          simp [List.filter, SpawnEvent.isErr, List.isEmpty] at h
      | closed c =>
          simp only [List.filter, SpawnEvent.isErr] at h
          simpa [runCommandSilentEvents] using ih h _ _

theorem runCommandEvents_no_terminal (es : List SpawnEvent)
    (he : (es.filter SpawnEvent.isErr).isEmpty = true)
    (hc : (es.filter SpawnEvent.isClose).isEmpty = true) :
    ∀ out err b, runCommandEvents es out err b = [] := by
  induction es with
  | nil => intro out err b; rfl
  | cons e rest ih =>
      intro out err b
      cases e with
      | stdout d =>
          simp only [List.filter, SpawnEvent.isErr, SpawnEvent.isClose] at he hc
          exact ih he hc _ _ _
      | stderr d =>
          simp only [List.filter, SpawnEvent.isErr, SpawnEvent.isClose] at he hc
          exact ih he hc _ _ _
      | errored m => simp [List.filter, SpawnEvent.isErr, List.isEmpty] at he
      | closed c => simp [List.filter, SpawnEvent.isClose, List.isEmpty] at hc

theorem runCommandSilentEvents_no_terminal (es : List SpawnEvent)
    (he : (es.filter SpawnEvent.isErr).isEmpty = true)
    (hc : (es.filter SpawnEvent.isClose).isEmpty = true) :
    ∀ out err b, runCommandSilentEvents es out err b = [] := by
  induction es with
  | nil => intro out err b; rfl
  | cons e rest ih =>
      intro out err b
      cases e with
      | stdout d =>
          simp only [List.filter, SpawnEvent.isErr, SpawnEvent.isClose] at he hc
          exact ih he hc _ _ _
      | stderr d =>
          simp only [List.filter, SpawnEvent.isErr, SpawnEvent.isClose] at he hc
          exact ih he hc _ _ _
      | errored m => simp [List.filter, SpawnEvent.isErr, List.isEmpty] at he
      | closed c => simp [List.filter, SpawnEvent.isClose, List.isEmpty] at hc

theorem runCommandEvents_resolutions (es : List SpawnEvent)
    (hok : spawnTraceOk es = true) :
    ∀ out err,
      runCommandEvents es out err false =
        if (es.filter SpawnEvent.isErr).isEmpty then
          match firstClose es with
          | some code => [code == some 0]
          | none => []
        else [false] := by
  induction es with
  | nil => intro out err; rfl
  | cons e rest ih =>
      intro out err
      cases e with
      | stdout d =>
          have hok' : spawnTraceOk rest = true := by
            simpa [spawnTraceOk, noErrAfterClose, List.filter, SpawnEvent.isErr,
              SpawnEvent.isClose] using hok
          simpa [runCommandEvents, List.filter, SpawnEvent.isErr, firstClose]
            using ih hok' (out ++ d) err
      | stderr d =>
          have hok' : spawnTraceOk rest = true := by
            simpa [spawnTraceOk, noErrAfterClose, List.filter, SpawnEvent.isErr,
              SpawnEvent.isClose] using hok
          simpa [runCommandEvents, List.filter, SpawnEvent.isErr, firstClose]
            using ih hok' out (err ++ d)
      | errored m =>
          have hrest : (rest.filter SpawnEvent.isErr).isEmpty = true := by
            simp only [spawnTraceOk, List.filter, SpawnEvent.isErr,
              Bool.and_eq_true, decide_eq_true_eq, List.length_cons] at hok
            have h1 := hok.1.1
            rw [List.isEmpty_iff_length_eq_zero]
            omega
          simp [runCommandEvents, List.filter, SpawnEvent.isErr,
            runCommandEvents_after_error rest hrest]
      | closed c =>
          have hne : (rest.filter SpawnEvent.isErr).isEmpty = true := by
            simp only [spawnTraceOk, noErrAfterClose, Bool.and_eq_true] at hok
            exact hok.2.1
          have hnc : (rest.filter SpawnEvent.isClose).isEmpty = true := by
            simp only [spawnTraceOk, List.filter, SpawnEvent.isClose,
              Bool.and_eq_true, decide_eq_true_eq, List.length_cons] at hok
            have h1 := hok.1.2
            rw [List.isEmpty_iff_length_eq_zero]
            omega
          simp [runCommandEvents, List.filter, SpawnEvent.isErr,
            SpawnEvent.isClose, firstClose, hne,
            runCommandEvents_no_terminal rest hne hnc]

theorem runCommandSilentEvents_resolutions (es : List SpawnEvent)
    (hok : spawnTraceOk es = true) :
    ∀ out err,
      (runCommandSilentEvents es out err false).map CommandOutcome.success =
        if (es.filter SpawnEvent.isErr).isEmpty then
          match firstClose es with
          | some code => [code == some 0]
          | none => []
        else [false] := by
  induction es with
  | nil => intro out err; rfl
  | cons e rest ih =>
      intro out err
      cases e with
      | stdout d =>
          have hok' : spawnTraceOk rest = true := by
            simpa [spawnTraceOk, noErrAfterClose, List.filter, SpawnEvent.isErr,
              SpawnEvent.isClose] using hok
          simpa [runCommandSilentEvents, List.filter, SpawnEvent.isErr, firstClose]
            using ih hok' (out ++ d) err
      | stderr d =>
          have hok' : spawnTraceOk rest = true := by
            simpa [spawnTraceOk, noErrAfterClose, List.filter, SpawnEvent.isErr,
              SpawnEvent.isClose] using hok
          simpa [runCommandSilentEvents, List.filter, SpawnEvent.isErr, firstClose]
            using ih hok' out (err ++ d)
      | errored m =>
          have hrest : (rest.filter SpawnEvent.isErr).isEmpty = true := by
            simp only [spawnTraceOk, List.filter, SpawnEvent.isErr,
              Bool.and_eq_true, decide_eq_true_eq, List.length_cons] at hok
            have h1 := hok.1.1
            rw [List.isEmpty_iff_length_eq_zero]
            omega
          simp [runCommandSilentEvents, List.filter, SpawnEvent.isErr,
            runCommandSilentEvents_after_error rest hrest]
      | closed c =>
          have hne : (rest.filter SpawnEvent.isErr).isEmpty = true := by
            simp only [spawnTraceOk, noErrAfterClose, Bool.and_eq_true] at hok
            exact hok.2.1
          have hnc : (rest.filter SpawnEvent.isClose).isEmpty = true := by
            simp only [spawnTraceOk, List.filter, SpawnEvent.isClose,
              Bool.and_eq_true, decide_eq_true_eq, List.length_cons] at hok
            have h1 := hok.1.2
            rw [List.isEmpty_iff_length_eq_zero]
            omega
          simp [runCommandSilentEvents, List.filter, SpawnEvent.isErr,
            SpawnEvent.isClose, firstClose, hne,
            runCommandSilentEvents_no_terminal rest hne hnc]

theorem filter_isErr_not_empty (es : List SpawnEvent) (m : JSStr)
    (h : SpawnEvent.errored m ∈ es) :
    (es.filter SpawnEvent.isErr).isEmpty = false := by
  have hmem : SpawnEvent.errored m ∈ es.filter SpawnEvent.isErr :=
    List.mem_filter.mpr ⟨h, rfl⟩
  cases hfe : es.filter SpawnEvent.isErr with
  | nil => rw [hfe] at hmem; cases hmem
  | cons a rest => rfl

theorem firstClose_of_mem (es : List SpawnEvent)
    (hok : (es.filter SpawnEvent.isClose).length ≤ 1) (code : Option Int)
    (h : SpawnEvent.closed code ∈ es) : firstClose es = some code := by
  induction es with
  | nil => cases h
  | cons e rest ih =>
      cases e with
      | stdout d =>
          have h' : SpawnEvent.closed code ∈ rest := by
            rcases List.mem_cons.mp h with h0 | h0
            · cases h0
            · exact h0
          have hok' : (rest.filter SpawnEvent.isClose).length ≤ 1 := by
            simpa [List.filter, SpawnEvent.isClose] using hok
          exact ih hok' h'
      | stderr d =>
          have h' : SpawnEvent.closed code ∈ rest := by
            rcases List.mem_cons.mp h with h0 | h0
            · cases h0
            · exact h0
          have hok' : (rest.filter SpawnEvent.isClose).length ≤ 1 := by
            simpa [List.filter, SpawnEvent.isClose] using hok
          exact ih hok' h'
      | errored m =>
          have h' : SpawnEvent.closed code ∈ rest := by
            rcases List.mem_cons.mp h with h0 | h0
            · cases h0
            · exact h0
          have hok' : (rest.filter SpawnEvent.isClose).length ≤ 1 := by
            simpa [List.filter, SpawnEvent.isClose] using hok
          exact ih hok' h'
      | closed c =>
          rcases List.mem_cons.mp h with h0 | h0
          · injection h0 with hc
            rw [firstClose, hc]
          · exfalso
            have hrest : SpawnEvent.closed code ∈ rest.filter SpawnEvent.isClose :=
              List.mem_filter.mpr ⟨h0, rfl⟩
            have hlen : 1 ≤ (rest.filter SpawnEvent.isClose).length := by
              cases hfe : rest.filter SpawnEvent.isClose with
              | nil => rw [hfe] at hrest; cases hrest
              | cons a r2 => simp
            simp only [List.filter, SpawnEvent.isClose, List.length_cons] at hok
            omega

theorem getLast_append_pair (l : List JSStr) (a b : JSStr) :
    (l ++ [a, b]).getLast? = some b := by
  have h : l ++ [a, b] = (l ++ [a]) ++ [b] := by simp
  rw [h, List.getLast?_concat]

end Setup

namespace Framer

theorem findSep_bound : ∀ b : List Nat, ∀ i, findSep b = some i → i + 4 ≤ b.length := by
  intro b
  induction b with
  | nil => intro i h; simp [findSep] at h
  | cons x rest ih =>
      intro i h
      by_cases hp : crlfcrlf.isPrefixOf (x :: rest) = true
      · have hpre : crlfcrlf <+: x :: rest := by
          exact List.isPrefixOf_iff_prefix.mp hp
        have hlen : crlfcrlf.length ≤ (x :: rest).length := hpre.length_le
        simp only [findSep, hp, if_true] at h
        cases h
        simpa [crlfcrlf] using hlen
      · simp only [findSep, hp, Bool.false_eq_true, if_false, Option.map_eq_some'] at h
        obtain ⟨j, hj, rfl⟩ := h
        have := ih j hj
        simp only [List.length_cons]
        omega

theorem findSep_append (b c : List Nat) :
    ∀ i, findSep b = some i → findSep (b ++ c) = some i := by
  induction b with
  | nil => intro i h; simp [findSep] at h
  | cons x rest ih =>
      intro i h
      by_cases hp : crlfcrlf.isPrefixOf (x :: rest) = true
      · have hpre : crlfcrlf <+: x :: rest := List.isPrefixOf_iff_prefix.mp hp
        have hpre' : crlfcrlf <+: x :: (rest ++ c) := by
          have := hpre.trans (List.prefix_append (x :: rest) c)
          simpa using this
        have hp' : crlfcrlf.isPrefixOf (x :: (rest ++ c)) = true :=
          List.isPrefixOf_iff_prefix.mpr hpre'
        rw [findSep, if_pos hp] at h
        show findSep (x :: (rest ++ c)) = some i
        rw [findSep, if_pos hp']
        exact h
      · have hlenr : ∃ j, findSep rest = some j := by
          rw [findSep, if_neg hp] at h
          cases hj : findSep rest with
          | none => rw [hj] at h; simp at h
          | some j => exact ⟨j, rfl⟩
        obtain ⟨j, hj⟩ := hlenr
        have hi : i = j + 1 := by
          rw [findSep, if_neg hp, hj] at h
          simpa using h.symm
        have hlen : j + 4 ≤ rest.length := findSep_bound rest j hj
        have hp' : ¬ crlfcrlf.isPrefixOf (x :: (rest ++ c)) = true := by
          intro hcon
          have hpre' : crlfcrlf <+: x :: (rest ++ c) :=
            List.isPrefixOf_iff_prefix.mp hcon
          have htake : crlfcrlf = (x :: (rest ++ c)).take 4 := by
            have := List.prefix_iff_eq_take.mp hpre'
            simpa [crlfcrlf] using this
          have hlen4 : (4 : Nat) ≤ (x :: rest).length := by
            simp only [List.length_cons]; omega
          have hxc : x :: (rest ++ c) = (x :: rest) ++ c := rfl
          rw [hxc, List.take_append_of_le_length hlen4] at htake
          have hpre2 : crlfcrlf <+: x :: rest := by
            rw [List.prefix_iff_eq_take]
            simpa [crlfcrlf] using htake
          exact hp (List.isPrefixOf_iff_prefix.mpr hpre2)
        show findSep (x :: (rest ++ c)) = some i
        rw [findSep, if_neg hp', ih j hj, hi]
        rfl

theorem extractOne_eq (buf : List Nat) (i n : Nat)
    (h1 : findSep buf = some i) (h2 : parseHeader (buf.take i) = some n) :
    extractOne buf =
      if n ≤ (buf.drop (i + 4)).length then
        some ((buf.drop (i + 4)).take n, (buf.drop (i + 4)).drop n)
      else none := by
  unfold extractOne
  rw [h1]
  dsimp only
  rw [h2]

theorem extractOne_inv (b m r : List Nat) (h : extractOne b = some (m, r)) :
    ∃ i n, findSep b = some i ∧ parseHeader (b.take i) = some n ∧
      n ≤ (b.drop (i + 4)).length ∧
      m = (b.drop (i + 4)).take n ∧ r = (b.drop (i + 4)).drop n := by
  unfold extractOne at h
  cases hfs : findSep b with
  | none => rw [hfs] at h; simp at h
  | some i =>
      rw [hfs] at h
      dsimp only at h
      cases hph : parseHeader (b.take i) with
      | none => rw [hph] at h; simp at h
      | some n =>
          rw [hph] at h
          dsimp only at h
          by_cases hn : n ≤ (b.drop (i + 4)).length
          · rw [if_pos hn] at h
            have hmr := Option.some.inj h
            exact ⟨i, n, rfl, hph, hn, (congrArg Prod.fst hmr).symm,
              (congrArg Prod.snd hmr).symm⟩
          · rw [if_neg hn] at h; simp at h

theorem extractOne_append (b c : List Nat) (m r : List Nat)
    (h : extractOne b = some (m, r)) : extractOne (b ++ c) = some (m, r ++ c) := by
  obtain ⟨i, n, hfs, hph, hn, hm, hr⟩ := extractOne_inv b m r h
  have hib : i + 4 ≤ b.length := findSep_bound b i hfs
  have hfs' : findSep (b ++ c) = some i := findSep_append b c i hfs
  have htake : (b ++ c).take i = b.take i :=
    List.take_append_of_le_length (by omega)
  have hdrop : (b ++ c).drop (i + 4) = b.drop (i + 4) ++ c :=
    List.drop_append_of_le_length (by omega)
  have hn' : n ≤ ((b ++ c).drop (i + 4)).length := by
    rw [hdrop, List.length_append]; omega
  rw [extractOne_eq (b ++ c) i n hfs' (htake ▸ hph), if_pos hn', hdrop,
    List.take_append_of_le_length hn, List.drop_append_of_le_length hn,
    ← hm, ← hr]

theorem extractOne_shrinks (b m r : List Nat) (h : extractOne b = some (m, r)) :
    r.length < b.length := by
  obtain ⟨i, n, hfs, hph, hn, hm, hr⟩ := extractOne_inv b m r h
  have hib : i + 4 ≤ b.length := findSep_bound b i hfs
  rw [hr]
  simp only [List.length_drop]
  omega

theorem drainGo_congr :
    ∀ f1 f2 : Nat, ∀ buf : List Nat, buf.length < f1 → buf.length < f2 →
      drainGo f1 buf = drainGo f2 buf := by
  intro f1
  induction f1 with
  | zero => intro f2 buf h1 h2; omega
  | succ f1 ih =>
      intro f2 buf h1 h2
      cases f2 with
      | zero => omega
      | succ f2 =>
          unfold drainGo
          cases hx : extractOne buf with
          | none => rfl
          | some p =>
              obtain ⟨m, r⟩ := p
              have hr : r.length < buf.length := extractOne_shrinks buf m r hx
              dsimp only
              rw [ih f2 r (by omega) (by omega)]

theorem drain_of_none (buf : List Nat) (h : extractOne buf = none) :
    drain buf = ([], buf) := by
  unfold drain drainGo
  rw [h]

theorem drain_of_some (buf m r : List Nat) (h : extractOne buf = some (m, r)) :
    drain buf = (m :: (drain r).1, (drain r).2) := by
  have hr : r.length < buf.length := extractOne_shrinks buf m r h
  show drainGo (buf.length + 1) buf = _
  unfold drainGo
  rw [h]
  dsimp only
  rw [drainGo_congr buf.length (r.length + 1) r (by omega) (by omega)]
  rfl

theorem drain_residue_aux :
    ∀ n : Nat, ∀ buf : List Nat, buf.length ≤ n → extractOne (drain buf).2 = none := by
  intro n
  induction n with
  | zero =>
      intro buf h
      cases hx : extractOne buf with
      | none => rw [drain_of_none buf hx]; exact hx
      | some p =>
          obtain ⟨m, r⟩ := p
          have := extractOne_shrinks buf m r hx
          omega
  | succ n ih =>
      intro buf h
      cases hx : extractOne buf with
      | none => rw [drain_of_none buf hx]; exact hx
      | some p =>
          obtain ⟨m, r⟩ := p
          rw [drain_of_some buf m r hx]
          have := extractOne_shrinks buf m r hx
          exact ih r (by omega)

theorem drain_residue (buf : List Nat) : extractOne (drain buf).2 = none :=
  drain_residue_aux buf.length buf le_rfl

theorem drain_append_aux :
    ∀ n : Nat, ∀ b c : List Nat, b.length ≤ n →
      drain (b ++ c) =
        ((drain b).1 ++ (drain ((drain b).2 ++ c)).1, (drain ((drain b).2 ++ c)).2) := by
  intro n
  induction n with
  | zero =>
      intro b c h
      have hb : b = [] := List.eq_nil_of_length_eq_zero (by omega)
      subst hb
      have h0 : extractOne ([] : List Nat) = none := rfl
      rw [drain_of_none [] h0]
      simp
  | succ n ih =>
      intro b c h
      cases hx : extractOne b with
      | none =>
          rw [drain_of_none b hx]
          simp
      | some p =>
          obtain ⟨m, r⟩ := p
          have hshr := extractOne_shrinks b m r hx
          have hx' : extractOne (b ++ c) = some (m, r ++ c) := extractOne_append b c m r hx
          rw [drain_of_some b m r hx, drain_of_some (b ++ c) m (r ++ c) hx']
          have := ih r c (by omega)
          rw [this]
          simp

theorem natBytes_digits (n : Nat) : ∀ b ∈ natBytes n, 48 ≤ b ∧ b ≤ 57 := by
  intro b hb
  unfold natBytes at hb
  by_cases hn : n = 0
  · rw [if_pos hn] at hb
    simp at hb
    omega
  · rw [if_neg hn] at hb
    simp only [List.mem_map, List.mem_reverse] at hb
    obtain ⟨d, hd, rfl⟩ := hb
    have := Nat.digits_lt_base (by norm_num) hd
    omega

theorem natBytes_ne_nil (n : Nat) : natBytes n ≠ [] := by
  unfold natBytes
  by_cases hn : n = 0
  · rw [if_pos hn]; simp
  · rw [if_neg hn]
    simp only [ne_eq, List.map_eq_nil_iff, List.reverse_eq_nil_iff]
    exact Nat.digits_ne_nil_iff_ne_zero.mpr hn

theorem foldl_digits (L : List Nat) :
    L.reverse.foldl (fun a d => a * 10 + d) 0 = Nat.ofDigits 10 L := by
  rw [List.foldl_reverse]
  induction L with
  | nil => rfl
  | cons d L ih =>
      rw [List.foldr_cons, ih, Nat.ofDigits_cons]
      ring

theorem parseDigits_natBytes (n : Nat) : parseDigits (natBytes n) = some n := by
  unfold parseDigits
  rw [if_neg (natBytes_ne_nil n)]
  have hall : (natBytes n).all (fun b => decide (48 ≤ b ∧ b ≤ 57)) = true := by
    rw [List.all_eq_true]
    intro b hb
    exact decide_eq_true (natBytes_digits n b hb)
  rw [if_pos hall]
  congr 1
  unfold natBytes
  by_cases hn : n = 0
  · rw [if_pos hn, hn]; rfl
  · rw [if_neg hn]
    have hmap : ((Nat.digits 10 n).reverse.map (· + 48)).foldl
        (fun a b => a * 10 + (b - 48)) 0 =
        (Nat.digits 10 n).reverse.foldl (fun a d => a * 10 + d) 0 := by
      rw [List.foldl_map]
      simp only [Nat.add_sub_cancel]
    rw [hmap, foldl_digits, Nat.ofDigits_digits]

theorem headerLabel_no_cr : ∀ b ∈ headerLabel, b ≠ 13 := by decide

theorem findSep_of_clean (h : List Nat) (tail : List Nat)
    (hclean : ∀ b ∈ h, b ≠ 13) :
    findSep (h ++ crlfcrlf ++ tail) = some h.length := by
  induction h with
  | nil =>
      show findSep (13 :: 10 :: 13 :: 10 :: tail) = some 0
      rw [findSep]
      simp [crlfcrlf, List.isPrefixOf]
  | cons x h ih =>
      have hx : x ≠ 13 := hclean x (by simp)
      have hp : ¬ crlfcrlf.isPrefixOf (x :: (h ++ crlfcrlf ++ tail)) = true := by
        intro hcon
        have hpre := List.isPrefixOf_iff_prefix.mp hcon
        obtain ⟨t, ht⟩ := hpre
        have h13 : crlfcrlf ++ t = 13 :: (10 :: 13 :: 10 :: t) := rfl
        rw [h13] at ht
        injection ht with hhead _
        exact hx hhead.symm
      show findSep (x :: (h ++ crlfcrlf ++ tail)) = some (x :: h).length
      rw [findSep, if_neg hp, ih (fun b hb => hclean b (by simp [hb]))]
      simp

theorem extractOne_encode (m tail : List Nat) :
    extractOne (encode m ++ tail) = some (m, tail) := by
  have hclean : ∀ b ∈ headerLabel ++ natBytes m.length, b ≠ 13 := by
    intro b hb
    rcases List.mem_append.mp hb with hb | hb
    · exact headerLabel_no_cr b hb
    · have := natBytes_digits m.length b hb
      omega
  have hassoc : encode m ++ tail =
      (headerLabel ++ natBytes m.length) ++ crlfcrlf ++ (m ++ tail) := by
    unfold encode
    simp [List.append_assoc]
  set hd := headerLabel ++ natBytes m.length with hhd
  have hfs : findSep (encode m ++ tail) = some hd.length := by
    rw [hassoc]
    exact findSep_of_clean hd (m ++ tail) hclean
  have htake : (encode m ++ tail).take hd.length = hd := by
    rw [hassoc, List.append_assoc]
    exact List.take_left' rfl
  have hph : parseHeader ((encode m ++ tail).take hd.length) = some m.length := by
    rw [htake]
    unfold parseHeader
    rw [if_pos (List.isPrefixOf_iff_prefix.mpr (List.prefix_append _ _))]
    rw [hhd, List.drop_left' rfl]
    exact parseDigits_natBytes m.length
  have hdrop : (encode m ++ tail).drop (hd.length + 4) = m ++ tail := by
    rw [hassoc]
    have h1 : hd ++ crlfcrlf ++ (m ++ tail) = (hd ++ crlfcrlf) ++ (m ++ tail) := by
      simp [List.append_assoc]
    rw [h1]
    have h2 : (hd ++ crlfcrlf).length = hd.length + 4 := by
      simp [crlfcrlf]
    rw [← h2, List.drop_left]
  rw [extractOne_eq (encode m ++ tail) hd.length m.length hfs hph, hdrop]
  have hlen : m.length ≤ (m ++ tail).length := by
    simp
  rw [if_pos hlen, List.take_left, List.drop_left]

theorem drain_encode_flatten (msgs : List (List Nat)) :
    drain ((msgs.map encode).flatten) = (msgs, []) := by
  induction msgs with
  | nil =>
      have : extractOne ([] : List Nat) = none := rfl
      simpa using drain_of_none [] this
  | cons m rest ih =>
      have hx : extractOne (encode m ++ (rest.map encode).flatten) =
          some (m, (rest.map encode).flatten) :=
        extractOne_encode m (rest.map encode).flatten
      have : (List.map encode (m :: rest)).flatten =
          encode m ++ (rest.map encode).flatten := by simp
      rw [this, drain_of_some _ _ _ hx, ih]

theorem decodeChunks_foldl (chunks : List (List Nat)) :
    ∀ acc : List (List Nat), ∀ r0 : List Nat, extractOne r0 = none →
      chunks.foldl feed (acc, r0) =
        (acc ++ (drain (r0 ++ chunks.flatten)).1, (drain (r0 ++ chunks.flatten)).2) := by
  induction chunks with
  | nil =>
      intro acc r0 h0
      rw [List.foldl_nil]
      have : r0 ++ ([] : List (List Nat)).flatten = r0 := by simp
      rw [this, drain_of_none r0 h0]
      simp
  | cons c cs ih =>
      intro acc r0 h0
      rw [List.foldl_cons]
      have hfeed : feed (acc, r0) c = (acc ++ (drain (r0 ++ c)).1, (drain (r0 ++ c)).2) :=
        rfl
      rw [hfeed, ih _ _ (drain_residue (r0 ++ c))]
      have hsplit := drain_append_aux (r0 ++ c).length (r0 ++ c) cs.flatten le_rfl
      have hflat : (c :: cs).flatten = c ++ cs.flatten := by simp
      have hassoc : r0 ++ (c :: cs).flatten = (r0 ++ c) ++ cs.flatten := by
        rw [hflat]; simp [List.append_assoc]
      rw [hassoc, hsplit]
      simp [List.append_assoc]

theorem decodeChunks_eq_drain (chunks : List (List Nat)) :
    decodeChunks chunks = drain chunks.flatten := by
  unfold decodeChunks
  rw [decodeChunks_foldl chunks [] [] rfl]
  simp

end Framer

namespace Resolver

theorem decideCandidates_spec (cs : List Candidate) :
    (cs = [] → decideCandidates cs = .symbolNotFound) ∧
      (∀ c, cs = [c] → decideCandidates cs = .resolved c) ∧
      (2 ≤ cs.length → decideCandidates cs = .ambiguous cs) ∧
      (∀ c, decideCandidates cs = .resolved c → cs = [c]) := by
  refine ⟨fun h => by subst h; rfl, fun c h => by subst h; rfl, ?_, ?_⟩
  · intro h
    cases cs with
    | nil => simp at h
    | cons c1 rest =>
        cases rest with
        | nil => simp at h
        | cons c2 rest2 => rfl
  · intro c h
    cases cs with
    | nil => exact absurd h (by simp [decideCandidates])
    | cons c1 rest =>
        cases rest with
        | nil =>
            have h' : ResolveOutcome.resolved c1 = ResolveOutcome.resolved c := h
            injection h' with hc
            rw [hc]
        | cons c2 rest2 => exact absurd h (by simp [decideCandidates])

end Resolver

namespace Rename

theorem backupBeforeOverwrite_nil : backupBeforeOverwrite [] := by
  intro pre path content suf h
  exact absurd h (by simp)

theorem applyPlans_backup_first (plans : List FileEditPlan) :
    ∀ fs : Fs, backupBeforeOverwrite (applyPlans plans fs).ops := by
  induction plans with
  | nil => intro fs; exact backupBeforeOverwrite_nil
  | cons p rest ih =>
      intro fs
      unfold applyPlans
      cases hg : fsGet fs p.path with
      | none => exact backupBeforeOverwrite_nil
      | some content =>
          dsimp only
          by_cases hc : content = p.originalContent
          · rw [if_pos hc]
            intro pre path c suf h
            dsimp only at h
            match pre, h with
            | [], h =>
                rw [List.nil_append] at h
                cases h
            | [b], h =>
                have h' := h
                simp only [List.cons_append, List.nil_append, List.cons.injEq] at h'
                obtain ⟨hb, hov, _⟩ := h'
                have hpath : p.path = path := by injection hov
                refine ⟨content, ?_⟩
                rw [← hpath, ← hb]
                simp
            | b1 :: b2 :: pre', h =>
                have h' := h
                simp only [List.cons_append, List.cons.injEq] at h'
                obtain ⟨hb1, hb2, htail⟩ := h'
                obtain ⟨c0, hc0⟩ := ih _ pre' path c suf htail
                exact ⟨c0, by simp [hc0]⟩
          · rw [if_neg hc]
            exact backupBeforeOverwrite_nil

end Rename

namespace Config

theorem serverEntryJson_keys (e : ServerConfigEntry) :
    jsonKeys (serverEntryJson e) =
      if e.restartInterval.isSome then
        [str "extensions", str "command", str "rootDir", str "restartInterval"]
      else [str "extensions", str "command", str "rootDir"] := by
  cases hri : e.restartInterval with
  | none => simp [serverEntryJson, jsonKeys, hri]
  | some n => simp [serverEntryJson, jsonKeys, hri]

theorem generateConfig_servers_shape (selectedLanguages : List JSStr) :
    ∀ e ∈ (generateConfig selectedLanguages).servers,
      e.extensions ≠ [] ∧ e.command ≠ [] ∧ e.rootDir = str "." ∧
        (∃ s ∈ LANGUAGE_SERVERS, selectedLanguages.contains s.name = true ∧
          e = toServerEntry s) := by
  intro e he
  simp only [generateConfig, List.mem_map, List.mem_filter] at he
  obtain ⟨s, ⟨hs, hsel⟩, rfl⟩ := he
  refine ⟨?_, ?_, rfl, s, hs, hsel, rfl⟩
  · have : ∀ t ∈ LANGUAGE_SERVERS, t.extensions ≠ [] := by decide
    exact this s hs
  · have : ∀ t ∈ LANGUAGE_SERVERS, t.command ≠ [] := by decide
    exact this s hs

end Config

/-! Claim theorems. -/

/-- C1: for every configuration path, user flag and platform, the
argument list returned by buildMCPArgs ends with the element pair
beginning with the option name followed by the CCLSP_CONFIG_PATH
assignment carrying the rendered path, and no earlier element is that
option or sets the variable; likewise the command string returned by
generateMCPCommand is a head free of both tokens followed by the single
environment assignment of CCLSP_CONFIG_PATH carrying the rendered
absolute configuration path. -/
theorem claim_C1 (resolvePath : JSStr → JSStr) (configPath absPath : JSStr)
    (isUser : Bool) (platform : JSStr) :
    (Setup.buildMCPArgs absPath isUser platform =
        Setup.mcpArgsHead isUser platform ++
          [str "--env",
            str "CCLSP_CONFIG_PATH=" ++ Setup.specRenderedPath absPath platform] ∧
      ∀ a ∈ Setup.mcpArgsHead isUser platform,
        a ≠ str "--env" ∧ (str "CCLSP_CONFIG_PATH=").isPrefixOf a = false) ∧
    (Setup.generateMCPCommand resolvePath configPath isUser platform =
        Setup.mcpCommandHead isUser platform ++ str " --env CCLSP_CONFIG_PATH=" ++
          Setup.specRenderedPath (Setup.absoluteOf resolvePath configPath) platform ∧
      Setup.occursIn (str "--env") (Setup.mcpCommandHead isUser platform) = false ∧
      Setup.occursIn (str "CCLSP_CONFIG_PATH")
        (Setup.mcpCommandHead isUser platform) = false) :=
  ⟨⟨Setup.buildMCPArgs_decomp absPath isUser platform,
    Setup.mcpArgsHead_no_env isUser platform⟩,
   Setup.generateMCPCommand_decomp resolvePath configPath isUser platform,
   (Setup.mcpCommandHead_no_env isUser platform).1,
   (Setup.mcpCommandHead_no_env isUser platform).2⟩

theorem claim_C1_witness :
    Setup.buildMCPArgs (str "/tmp/cclsp.json") false (str "linux") =
      Setup.mcpArgsHead false (str "linux") ++
        [str "--env", str "CCLSP_CONFIG_PATH=" ++
          Setup.specRenderedPath (str "/tmp/cclsp.json") (str "linux")] ∧
    (str "add" ≠ str "--env" ∧
      (str "CCLSP_CONFIG_PATH=").isPrefixOf (str "add") = false) :=
  ⟨(claim_C1 id (str "/tmp/cclsp.json") (str "/tmp/cclsp.json") false
      (str "linux")).1.1,
   (claim_C1 id (str "/tmp/cclsp.json") (str "/tmp/cclsp.json") false
      (str "linux")).1.2 (str "add") (by decide)⟩

/-- C2: for every selection of languages, the configuration object the
setup flow serializes is a JSON object with the single servers key
holding the ordered descriptor list; each descriptor has a non-empty
extension list, a non-empty command, the current-directory rootDir,
and carries a restartInterval key exactly when the catalog defines an
interval for that server. -/
theorem claim_C2 (selectedLanguages : List JSStr) :
    Config.configJson (Config.generateConfig selectedLanguages) =
      Config.Json.jobj [(str "servers", Config.Json.jarr
        ((Config.generateConfig selectedLanguages).servers.map
          Config.serverEntryJson))] ∧
    Config.jsonKeys (Config.configJson (Config.generateConfig selectedLanguages)) =
      [str "servers"] ∧
    (Config.generateConfig selectedLanguages).servers =
      (Config.LANGUAGE_SERVERS.filter fun s =>
        selectedLanguages.contains s.name).map Config.toServerEntry ∧
    ∀ e ∈ (Config.generateConfig selectedLanguages).servers,
      e.extensions ≠ [] ∧ e.command ≠ [] ∧ e.rootDir = str "." ∧
      Config.jsonKeys (Config.serverEntryJson e) =
        (if e.restartInterval.isSome then
          [str "extensions", str "command", str "rootDir", str "restartInterval"]
         else [str "extensions", str "command", str "rootDir"]) := by
  refine ⟨rfl, rfl, rfl, ?_⟩
  intro e he
  obtain ⟨h1, h2, h3, _⟩ := Config.generateConfig_servers_shape selectedLanguages e he
  exact ⟨h1, h2, h3, Config.serverEntryJson_keys e⟩

theorem claim_C2_witness :
    Config.jsonKeys (Config.configJson (Config.generateConfig [str "python"])) =
      [str "servers"] ∧
    Config.jsonKeys (Config.serverEntryJson
        (Config.toServerEntry ⟨str "python", [str "py"], [str "pylsp"], some 5⟩)) =
      [str "extensions", str "command", str "rootDir", str "restartInterval"] :=
  ⟨(claim_C2 [str "python"]).2.1,
   by
    have h := (claim_C2 [str "python"]).2.2.2
      (Config.toServerEntry ⟨str "python", [str "py"], [str "pylsp"], some 5⟩)
      (by decide)
    simpa using h.2.2.2⟩

/-- C3: name-based resolution with zero surviving candidates yields
SymbolNotFound, with exactly one yields that candidate, and with more
than one yields all of them as an ambiguous result; it never returns a
single candidate unless it was the only survivor. -/
theorem claim_C3 (text name : JSStr) (defsAt : Nat → List Resolver.Location)
    (kindOf : Resolver.Location → Option Resolver.SymbolKind)
    (wanted : Option Resolver.SymbolKind) :
    (Resolver.finalCandidates text name defsAt kindOf wanted = [] →
      Resolver.resolveByName text name defsAt kindOf wanted = .symbolNotFound) ∧
    (∀ c, Resolver.finalCandidates text name defsAt kindOf wanted = [c] →
      Resolver.resolveByName text name defsAt kindOf wanted = .resolved c) ∧
    (2 ≤ (Resolver.finalCandidates text name defsAt kindOf wanted).length →
      Resolver.resolveByName text name defsAt kindOf wanted =
        .ambiguous (Resolver.finalCandidates text name defsAt kindOf wanted)) ∧
    (∀ c, Resolver.resolveByName text name defsAt kindOf wanted = .resolved c →
      Resolver.finalCandidates text name defsAt kindOf wanted = [c]) :=
  Resolver.decideCandidates_spec
    (Resolver.finalCandidates text name defsAt kindOf wanted)

theorem claim_C3_witness :
    Resolver.resolveByName (str "foo bar foo") (str "foo")
      (fun o => if o = 0 then [⟨str "f", 1, 0⟩]
        else if o = 8 then [⟨str "f", 2, 0⟩] else [])
      (fun _ => none) none =
      Resolver.ResolveOutcome.ambiguous
        (Resolver.finalCandidates (str "foo bar foo") (str "foo")
          (fun o => if o = 0 then [⟨str "f", 1, 0⟩]
            else if o = 8 then [⟨str "f", 2, 0⟩] else [])
          (fun _ => none) none) :=
  (claim_C3 (str "foo bar foo") (str "foo")
    (fun o => if o = 0 then [⟨str "f", 1, 0⟩]
      else if o = 8 then [⟨str "f", 2, 0⟩] else [])
    (fun _ => none) none).2.2.1 (by decide)

/-- C4: for every list of framed messages and every partition of the
concatenation of their encodings into read chunks, decoding the chunks
yields exactly those messages with an empty residue; this covers both
an encoding split across several reads and several messages arriving
in one read. -/
theorem claim_C4 (msgs chunks : List (List Nat))
    (h : chunks.flatten = (msgs.map Framer.encode).flatten) :
    Framer.decodeChunks chunks = (msgs, []) := by
  rw [Framer.decodeChunks_eq_drain, h, Framer.drain_encode_flatten]

theorem claim_C4_witness :
    Framer.decodeChunks
      [(Framer.encode [104, 105]).take 7, (Framer.encode [104, 105]).drop 7] =
      ([[104, 105]], []) :=
  claim_C4 [[104, 105]] _ (by simp)

/-- C5: in every apply run, every overwrite of a file in the write
trace is strictly preceded by the write of that file's backup copy at
its fixed-suffix backup path; no execution overwrites a file whose
backup does not yet exist. -/
theorem claim_C5 (plans : List Rename.FileEditPlan) (fs : Rename.Fs) :
    Rename.backupBeforeOverwrite (Rename.applyPlans plans fs).ops :=
  Rename.applyPlans_backup_first plans fs

theorem claim_C5_witness :
    ∃ c, Rename.FsOp.writeBackup (Rename.backupPathOf (str "a.ts")) c ∈
      [Rename.FsOp.writeBackup (Rename.backupPathOf (str "a.ts")) (str "x")] :=
  claim_C5 [⟨str "a.ts", str "x", str "y"⟩] [(str "a.ts", str "x")]
    [Rename.FsOp.writeBackup (Rename.backupPathOf (str "a.ts")) (str "x")]
    (str "a.ts") (str "y") [] (by decide)

/-- C6: for the same oracle, resolved position and new name, the
dry-run preview computes exactly the plans the apply path computes,
performs no filesystem writes, applies no file, and leaves the
filesystem unchanged. -/
theorem claim_C6 (oracle : Nat × Nat → JSStr → Rename.WorkspaceEdit)
    (pos : Nat × Nat) (newName : JSStr) (fs : Rename.Fs) :
    (Rename.runRename oracle pos newName true fs).plans =
      (Rename.runRename oracle pos newName false fs).plans ∧
    (Rename.runRename oracle pos newName true fs).ops = [] ∧
    (Rename.runRename oracle pos newName true fs).applied = [] ∧
    (Rename.runRename oracle pos newName true fs).fs = fs :=
  ⟨rfl, rfl, rfl, rfl⟩

/-- C7: when a server process exits, also during a restart, the
instance moves to Stopped, its pending-request table is empty
afterward, and the completions emitted fail exactly the previously
pending requests with ServerDisconnected. -/
theorem claim_C7 (st : Protocol.InstanceState) :
    ((Protocol.protocolStep st .processExit).1.pending = [] ∧
      (Protocol.protocolStep st .processExit).1.lifecycle = .stopped ∧
      (Protocol.protocolStep st .processExit).2 =
        st.pending.map (fun r => Protocol.Completion.failed r.id .serverDisconnected) ∧
      ∀ r ∈ st.pending,
        Protocol.Completion.failed r.id .serverDisconnected ∈
          (Protocol.protocolStep st .processExit).2) ∧
    ((Protocol.restartInstance st).1.pending = [] ∧
      (Protocol.restartInstance st).2 =
        st.pending.map (fun r => Protocol.Completion.failed r.id .serverDisconnected)) := by
  refine ⟨⟨rfl, rfl, rfl, ?_⟩, rfl, rfl⟩
  intro r hr
  exact List.mem_map_of_mem _ hr

theorem claim_C7_witness :
    (Protocol.protocolStep ⟨.running, [⟨1, 0⟩, ⟨2, 0⟩], 3⟩
        Protocol.ClientEvent.processExit).1.pending = [] ∧
    Protocol.Completion.failed 1 .serverDisconnected ∈
      (Protocol.protocolStep ⟨.running, [⟨1, 0⟩, ⟨2, 0⟩], 3⟩
        Protocol.ClientEvent.processExit).2 :=
  ⟨(claim_C7 ⟨.running, [⟨1, 0⟩, ⟨2, 0⟩], 3⟩).1.1,
   (claim_C7 ⟨.running, [⟨1, 0⟩, ⟨2, 0⟩], 3⟩).1.2.2.2 ⟨1, 0⟩ (by decide)⟩

/-- C8: for every configuration path that is already absolute, every
user flag and every platform, generateMCPCommand returns exactly the
word claude followed by the elements of buildMCPArgs joined by single
spaces. -/
theorem claim_C8 (resolvePath : JSStr → JSStr) (configPath : JSStr)
    (isUser : Bool) (platform : JSStr)
    (h : (str "/").isPrefixOf configPath = true) :
    Setup.generateMCPCommand resolvePath configPath isUser platform =
      str "claude " ++
        Setup.joinSpaced (Setup.buildMCPArgs configPath isUser platform) := by
  have habs : Setup.isAbsoluteConfigPath configPath = true := by
    unfold Setup.isAbsoluteConfigPath
    rw [h]
    rfl
  by_cases hw : platform = str "win32" <;> by_cases hu : isUser <;>
    simp only [Setup.generateMCPCommand, Setup.buildMCPArgs, habs, hw, hu,
      if_true, if_false, ite_true, ite_false, eq_self_iff_true,
      List.cons_append, List.nil_append, Setup.joinSpaced] <;>
    rfl

theorem claim_C8_witness :
    Setup.generateMCPCommand id (str "/tmp/a b.json") true (str "darwin") =
      str "claude " ++
        Setup.joinSpaced (Setup.buildMCPArgs (str "/tmp/a b.json") true
          (str "darwin")) :=
  claim_C8 id (str "/tmp/a b.json") true (str "darwin") (by decide)

/-- C9: both builders render the CCLSP_CONFIG_PATH value by the same
rule: a path containing a space is wrapped in double quotes on win32
and has each space escaped elsewhere, and a path without spaces is
emitted unchanged and never quoted. -/
theorem claim_C9 (resolvePath : JSStr → JSStr) (configPath absPath : JSStr)
    (isUser : Bool) (platform : JSStr) :
    (Setup.buildMCPArgs absPath isUser platform).getLast? =
      some (str "CCLSP_CONFIG_PATH=" ++ Setup.specRenderedPath absPath platform) ∧
    Setup.generateMCPCommand resolvePath configPath isUser platform =
      Setup.mcpCommandHead isUser platform ++ str " --env CCLSP_CONFIG_PATH=" ++
        Setup.specRenderedPath (Setup.absoluteOf resolvePath configPath) platform ∧
    (absPath.contains ' ' = true → platform = str "win32" →
      Setup.specRenderedPath absPath platform = str "\"" ++ absPath ++ str "\"") ∧
    (absPath.contains ' ' = true → platform ≠ str "win32" →
      Setup.specRenderedPath absPath platform = Setup.escapeSpaces absPath) ∧
    (absPath.contains ' ' = false →
      Setup.specRenderedPath absPath platform = absPath) := by
  refine ⟨?_, Setup.generateMCPCommand_decomp resolvePath configPath isUser platform,
    ?_, ?_, ?_⟩
  · rw [Setup.buildMCPArgs_decomp]
    exact Setup.getLast_append_pair _ _ _
  · intro hs hw
    unfold Setup.specRenderedPath
    rw [hs, hw]
    simp
  · intro hs hw
    unfold Setup.specRenderedPath
    rw [hs]
    simp [hw]
  · intro hs
    unfold Setup.specRenderedPath
    rw [hs]
    simp

theorem claim_C9_witness :
    (Setup.buildMCPArgs (str "/a b") false (str "win32")).getLast? =
      some (str "CCLSP_CONFIG_PATH=" ++
        Setup.specRenderedPath (str "/a b") (str "win32")) ∧
    Setup.specRenderedPath (str "/a b") (str "win32") =
      str "\"" ++ str "/a b" ++ str "\"" :=
  ⟨(claim_C9 id (str "/x") (str "/a b") false (str "win32")).1,
   (claim_C9 id (str "/x") (str "/a b") false (str "win32")).2.2.1 (by decide) rfl⟩

/-- C10: for a spawnable command and any event trace a child process
can deliver, the promise of runCommand and of runCommandSilent settles
exactly once; it resolves with failure when a spawn error is emitted,
and otherwise resolves on close with success exactly when the exit
code is zero; a close arriving after a spawn error never settles the
promise a second time. -/
theorem claim_C10 (c : JSStr) (cs : List JSStr) (es : List Setup.SpawnEvent)
    (hc : ¬ c = []) (hok : Setup.spawnTraceOk es = true) :
    ((∃ m, Setup.SpawnEvent.errored m ∈ es) ∨
        (∃ code, Setup.SpawnEvent.closed code ∈ es) →
      (Setup.runCommand (c :: cs) es).length = 1 ∧
        (Setup.runCommandSilent (c :: cs) es).length = 1) ∧
    (∀ m, Setup.SpawnEvent.errored m ∈ es →
      Setup.runCommand (c :: cs) es = [false] ∧
        (Setup.runCommandSilent (c :: cs) es).map Setup.CommandOutcome.success =
          [false]) ∧
    (∀ code, (es.filter Setup.SpawnEvent.isErr).isEmpty = true →
      Setup.SpawnEvent.closed code ∈ es →
      Setup.runCommand (c :: cs) es = [code == some 0] ∧
        (Setup.runCommandSilent (c :: cs) es).map Setup.CommandOutcome.success =
          [code == some 0]) := by
  have hrc : Setup.runCommand (c :: cs) es = Setup.runCommandEvents es [] [] false := by
    unfold Setup.runCommand
    dsimp only
    rw [if_neg hc]
  have hrs : Setup.runCommandSilent (c :: cs) es =
      Setup.runCommandSilentEvents es [] [] false := by
    unfold Setup.runCommandSilent
    dsimp only
    rw [if_neg hc]
  have h1 := Setup.runCommandEvents_resolutions es hok [] []
  have h2 := Setup.runCommandSilentEvents_resolutions es hok [] []
  have hlenmap : (Setup.runCommandSilentEvents es [] [] false).length =
      ((Setup.runCommandSilentEvents es [] [] false).map
        Setup.CommandOutcome.success).length := (List.length_map _ _).symm
  have hclose1 : (es.filter Setup.SpawnEvent.isClose).length ≤ 1 := by
    simp only [Setup.spawnTraceOk, Bool.and_eq_true, decide_eq_true_eq] at hok
    exact hok.1.2
  refine ⟨?_, ?_, ?_⟩
  · intro hexists
    rcases hexists with ⟨m, hm⟩ | ⟨code, hcode⟩
    · have hne := Setup.filter_isErr_not_empty es m hm
      constructor
      · rw [hrc, h1, hne]
        rfl
      · rw [hrs, hlenmap, h2, hne]
        rfl
    · by_cases hE : (es.filter Setup.SpawnEvent.isErr).isEmpty = true
      · have hfc := Setup.firstClose_of_mem es hclose1 code hcode
        constructor
        · rw [hrc, h1, hE, hfc]
          rfl
        · rw [hrs, hlenmap, h2, hE, hfc]
          rfl
      · have hne : (es.filter Setup.SpawnEvent.isErr).isEmpty = false := by
          revert hE
          cases (es.filter Setup.SpawnEvent.isErr).isEmpty <;> simp
        constructor
        · rw [hrc, h1, hne]
          rfl
        · rw [hrs, hlenmap, h2, hne]
          rfl
  · intro m hm
    have hne := Setup.filter_isErr_not_empty es m hm
    constructor
    · rw [hrc, h1, hne]
      rfl
    · rw [hrs, h2, hne]
      rfl
  · intro code hE hcode
    have hfc := Setup.firstClose_of_mem es hclose1 code hcode
    constructor
    · rw [hrc, h1, hE, hfc]
      rfl
    · rw [hrs, h2, hE, hfc]
      rfl

theorem claim_C10_witness :
    Setup.runCommand [str "npm"]
      [Setup.SpawnEvent.errored (str "spawn ENOENT"),
        Setup.SpawnEvent.closed none] = [false] ∧
    (Setup.runCommand [str "npm"]
      [Setup.SpawnEvent.errored (str "spawn ENOENT"),
        Setup.SpawnEvent.closed none]).length = 1 :=
  ⟨((claim_C10 (str "npm") []
      [Setup.SpawnEvent.errored (str "spawn ENOENT"),
        Setup.SpawnEvent.closed none] (by decide) (by decide)).2.1
      (str "spawn ENOENT") (by decide)).1,
   ((claim_C10 (str "npm") []
      [Setup.SpawnEvent.errored (str "spawn ENOENT"),
        Setup.SpawnEvent.closed none] (by decide) (by decide)).1
      (Or.inl ⟨str "spawn ENOENT", by decide⟩)).1⟩

end Cclsp
